import Mathlib

/-
Verification development for the sprite-sheet composition and color-variant
engine of the PY_PIXEL_ART repository (src/pixel_factory/spritesheet.py,
src/pixel_factory/preview.py, src/pixel_factory/pipeline.py, models.py).

Images are embedded as a mode tag, integer dimensions and a total pixel
function; machine channels are natural numbers kept in range by the same
clamping the code performs.  The image operations of the PIL library that the
repository calls (convert between RGB, RGBA and HSV, paste with an RGBA mask,
crop, nearest-neighbor resize, putalpha) are embedded from the PIL reference
semantics (libImaging Convert.c, Paste.c, Geometry.c), with the float
intermediates of Convert.c idealized to exact rational arithmetic.
-/

inductive Mode where
  | RGB
  | RGBA
  | HSV
deriving DecidableEq

/-- One pixel: four 8-bit channels.  In RGB mode the alpha field is kept at
255; in HSV mode the fields r, g, b hold the hue, saturation and value
channels. -/
structure Pixel where
  r : Nat
  g : Nat
  b : Nat
  a : Nat
deriving DecidableEq

/-- The HSV value component of a color, the maximum of its three color
channels.  This is the component the color-variant transform leaves
untouched: only hue and saturation may change. -/
def Pixel.value (p : Pixel) : Nat :=
  max p.r (max p.g p.b)

/-- An image: a mode, dimensions, and a total pixel function.  Queries outside
the rectangle are phantom values, never observed by the theorems. -/
structure Image where
  mode : Mode
  width : Nat
  height : Nat
  px : Nat → Nat → Pixel

/-- Embeds PIL Image.new: a constant image. -/
def Image.new (m : Mode) (w h : Nat) (bg : Pixel) : Image :=
  ⟨m, w, h, fun _ _ => bg⟩

/-- Embeds the MULDIV255 macro of libImaging: tmp = a*b + 128, then
(tmp >> 8 + tmp) >> 8, an exact division by 255 with rounding. -/
def muldiv255 (a b : Nat) : Nat :=
  let t := a * b + 128
  (t / 256 + t) / 256

/-- Embeds the BLEND macro used by paste with a mask band: a convex
combination of the two channels weighted by the mask. -/
def blendChannel (mask under over : Nat) : Nat :=
  muldiv255 under (255 - mask) + muldiv255 over mask

/-- Pixel-level semantics of pasting the pixel over onto the pixel under.
When useMask is true (the source image is RGBA and is passed as its own
mask), each channel is blended with the source alpha as mask, exactly as
paste_mask_RGBA of Paste.c does; otherwise the source pixel replaces the
destination pixel. -/
def pastePx (under over : Pixel) (useMask : Bool) : Pixel :=
  if useMask then
    ⟨blendChannel over.a under.r over.r,
     blendChannel over.a under.g over.g,
     blendChannel over.a under.b over.b,
     blendChannel over.a under.a over.a⟩
  else over

/-- Embeds PIL Image.paste(src, (x0, y0), mask) for the two mask shapes the
repository uses: the source itself when the source is RGBA, no mask
otherwise.  Writes land in the source rectangle; the model keeps them in the
total pixel function, which agrees with PIL on every in-bounds query. -/
def Image.paste (dst src : Image) (x0 y0 : Nat) : Image :=
  { dst with
    px := fun x y =>
      if x0 ≤ x ∧ x < x0 + src.width ∧ y0 ≤ y ∧ y < y0 + src.height then
        pastePx (dst.px x y) (src.px (x - x0) (y - y0)) (src.mode == Mode.RGBA)
      else dst.px x y }

/-- Embeds PIL Image.putalpha: replaces the alpha band, RGBA result. -/
def Image.putalpha (img : Image) (alpha : Nat → Nat → Nat) : Image :=
  ⟨Mode.RGBA, img.width, img.height, fun x y => { img.px x y with a := alpha x y }⟩

/-- Embeds PIL Image.crop((x0, y0, x1, y1)): the box size is (x1 - x0, y1 - y0)
and pixels taken outside the source are zero, as in PIL. -/
def Image.crop (img : Image) (x0 y0 x1 y1 : Nat) : Image :=
  ⟨img.mode, x1 - x0, y1 - y0, fun x y =>
    if x0 + x < img.width ∧ y0 + y < img.height then img.px (x0 + x) (y0 + y)
    else ⟨0, 0, 0, 0⟩⟩

/-- Embeds PIL Image.resize((w, h), Image.NEAREST): every target pixel samples
the source at the center of the corresponding source location, the floor of
(x + 1/2) * width / w, written in integer arithmetic. -/
def resizeNearest (img : Image) (w h : Nat) : Image :=
  ⟨img.mode, w, h, fun x y =>
    img.px ((2 * x + 1) * img.width / (2 * w)) ((2 * y + 1) * img.height / (2 * h))⟩

/-- Embeds upscale_nearest_neighbor of spritesheet.py. -/
def upscale_nearest_neighbor (image : Image) (scale : Nat) : Image :=
  resizeNearest image (image.width * scale) (image.height * scale)

/-- Embeds rgb2hsv_row of libImaging Convert.c (the conversion PIL applies
per pixel for convert to HSV), with the float intermediates of the C code
idealized to exact arithmetic.  The hue channel is 8-bit: the full 360 degree
circle maps to 0..255.  The C code forms the fraction h = fract(h6 / 6 + 1)
where h6 is one of bc - gc, 2 + rc - bc, 4 + gc - rc; each of these is an
integer n6 over the chroma cr, so the truncation (int)(h * 255) equals the
integer division below; min 255 embeds the CLIP8 macro. -/
def rgb2hsv (p : Pixel) : Pixel :=
  let maxc := max p.r (max p.g p.b)
  let minc := min p.r (min p.g p.b)
  if minc = maxc then ⟨0, 0, maxc, 255⟩
  else
    let cr := maxc - minc
    let n6 : ℤ :=
      if maxc = p.r then (p.g : ℤ) - (p.b : ℤ)
      else if maxc = p.g then 2 * (cr : ℤ) + ((p.b : ℤ) - (p.r : ℤ))
      else 4 * (cr : ℤ) + ((p.r : ℤ) - (p.g : ℤ))
    let m := ((n6 + 6 * (cr : ℤ)).emod (6 * (cr : ℤ))).toNat
    let uh := min 255 (255 * m / (6 * cr))
    let us := min 255 (255 * cr / maxc)
    ⟨uh, us, maxc, 255⟩

/-- Embeds hsv2rgb_row of libImaging Convert.c, with the float intermediates
of the C code idealized to exact arithmetic.  The C code computes
p = round(v * (1 - fs)), q = round(v * (1 - fs * f)), t = round(v * (1 - fs *
(1 - f))) with fs = s / 255 and f = (h * 6 mod 255) / 255; rounding a
fraction a / b half up is the integer division (2 * a + b) / (2 * b), which
is what the divisions below compute over the common denominators 255 and
65025 = 255 * 255; min 255 embeds the CLIP8 macro. -/
def hsv2rgb (p : Pixel) : Pixel :=
  if p.g = 0 then ⟨p.b, p.b, p.b, 255⟩
  else
    let i := p.r * 6 / 255
    let rem := p.r * 6 % 255
    let pp := min 255 ((2 * p.b * (255 - p.g) + 255) / 510)
    let qq := min 255 ((2 * p.b * (65025 - p.g * rem) + 65025) / 130050)
    let tt := min 255 ((2 * p.b * (65025 - p.g * (255 - rem)) + 65025) / 130050)
    match i % 6 with
    | 0 => ⟨p.b, tt, pp, 255⟩
    | 1 => ⟨qq, p.b, pp, 255⟩
    | 2 => ⟨pp, p.b, tt, 255⟩
    | 3 => ⟨pp, qq, p.b, 255⟩
    | 4 => ⟨tt, pp, p.b, 255⟩
    | _ => ⟨p.b, pp, qq, 255⟩

/-- Conversion of one pixel to RGB from the given source mode, following the
PIL conversions the repository exercises: RGBA drops the alpha band, HSV goes
through hsv2rgb. -/
def toRGBPixel (m : Mode) (p : Pixel) : Pixel :=
  match m with
  | Mode.RGB => p
  | Mode.RGBA => { p with a := 255 }
  | Mode.HSV => hsv2rgb p

/-- Embeds PIL Image.convert for the modes the repository uses.  Converting
to the own mode is a copy; converting to RGBA attaches a fully opaque alpha
band, as PIL does. -/
def Image.convert (img : Image) (m : Mode) : Image :=
  if img.mode = m then img
  else
    match m with
    | Mode.RGB =>
        ⟨Mode.RGB, img.width, img.height, fun x y => toRGBPixel img.mode (img.px x y)⟩
    | Mode.RGBA =>
        ⟨Mode.RGBA, img.width, img.height,
         fun x y => { toRGBPixel img.mode (img.px x y) with a := 255 }⟩
    | Mode.HSV =>
        ⟨Mode.HSV, img.width, img.height,
         fun x y => rgb2hsv (toRGBPixel img.mode (img.px x y))⟩

/-- Truncation toward zero of s times a rational factor, the semantics of the
Python cast int(s * saturation_factor): the product is s * num / den exactly,
and int() truncates toward zero, which is the truncated integer division. -/
def pyIntMul (s : Nat) (q : ℚ) : ℤ :=
  ((s : ℤ) * q.num).tdiv (q.den : ℤ)

/-- The per-pixel transformation of the loop in apply_color_variant
(spritesheet.py lines 33-39): new hue is (h + hue_shift) mod 256, new
saturation is min(255, max(0, int(s * saturation_factor))), value untouched.
The Python mod on ints is the euclidean mod. -/
def variantPx (hue_shift : ℤ) (saturation_factor : ℚ) (p : Pixel) : Pixel :=
  let nh := (((p.r : ℤ) + hue_shift).emod 256).toNat
  let ns := (min 255 (max 0 (pyIntMul p.g saturation_factor))).toNat
  ⟨nh, ns, p.b, p.a⟩

/-- Embeds apply_color_variant of spritesheet.py: convert to RGB then to HSV,
remember the alpha band when the source is RGBA, transform every pixel in
place (the Python getdata/putdata loop is a pointwise map in raster order),
convert back to RGB, convert to RGBA and restore the alpha band when one was
taken. -/
def apply_color_variant (base_image : Image) (hue_shift : ℤ) (saturation_factor : ℚ) : Image :=
  let rgb_image := base_image.convert Mode.RGB
  let hsv_image := rgb_image.convert Mode.HSV
  let transformed : Image :=
    ⟨Mode.HSV, hsv_image.width, hsv_image.height,
     fun x y => variantPx hue_shift saturation_factor (hsv_image.px x y)⟩
  let result := transformed.convert Mode.RGB
  if base_image.mode = Mode.RGBA then
    (result.convert Mode.RGBA).putalpha (fun x y => (base_image.px x y).a)
  else
    result.convert Mode.RGBA

/-- Embeds the AnimationType enum of models.py. -/
inductive AnimationType where
  | IDLE
  | WALK
  | ATTACK
deriving DecidableEq

/-- Embeds the string value of each AnimationType member. -/
def AnimationType.value : AnimationType → String
  | AnimationType.IDLE => "idle"
  | AnimationType.WALK => "walk"
  | AnimationType.ATTACK => "attack"

/-- Lexicographic comparison of character lists by code point, the order
Python uses to compare strings. -/
def charListLe : List Char → List Char → Bool
  | [], _ => true
  | _ :: _, [] => false
  | c :: cs, d :: ds =>
    if c.val < d.val then true
    else if d.val < c.val then false
    else charListLe cs ds

/-- Lexicographic string comparison by code point. -/
def strLe (a b : String) : Bool :=
  charListLe a.data b.data

/-- Insertion step of a stable insertion sort on animation types compared by
their string value. -/
def insertSorted (a : AnimationType) : List AnimationType → List AnimationType
  | [] => [a]
  | b :: l => if strLe a.value b.value then a :: b :: l else b :: insertSorted a l

/-- Embeds sorted(keys, key=lambda x: x.value) of spritesheet.py line 106:
the animation kinds ordered by their string identifier. -/
def sortKeys (l : List AnimationType) : List AnimationType :=
  l.foldr insertSorted []

/-- Lookup in a mapping represented as an association list in insertion
order: the dict indexing animation_frames[anim_type].  Keys of a Python dict
are unique. -/
def dictLookup (k : AnimationType) : List (AnimationType × List Image) → Option (List Image)
  | [] => none
  | (a, v) :: rest => if k = a then some v else dictLookup k rest

/-- Maximum of a list of naturals, the Python max over a nonempty list. -/
def maxList : List Nat → Nat
  | [] => 0
  | n :: l => max n (maxList l)

/-- The paste loop shared by the sheet composers: pastes the frames
left-to-right starting at (x, y), advancing by W + spacing after each frame,
where W is the width of the first frame of the sheet (the stride the code
uses for every frame, whatever the own width of the frame). -/
def pasteStrip (sheet : Image) (frames : List Image) (x y W spacing : Nat) : Image :=
  match frames with
  | [] => sheet
  | f :: rest => pasteStrip (sheet.paste f x y) rest (x + W + spacing) y W spacing

/-- Embeds create_animation_sprite_sheet of spritesheet.py: an empty frame
list raises ValueError (none); otherwise a new RGBA sheet of width
N * W + (N - 1) * spacing and height H taken from the first frame, with the
frames pasted left-to-right. -/
def create_animation_sprite_sheet (frames : List Image) (spacing : Nat) (background_color : Pixel) :
    Option Image :=
  match frames with
  | [] => none
  | f0 :: _ =>
    let frame_width := f0.width
    let frame_height := f0.height
    let total_width := frames.length * frame_width + (frames.length - 1) * spacing
    some (pasteStrip (Image.new Mode.RGBA total_width frame_height background_color)
      frames 0 0 frame_width spacing)

/-- The row loop of create_combined_sprite_sheet: for each animation kind in
the given order, paste the frames of that kind as a strip at the current
vertical offset, then advance by H + spacing. -/
def pasteRows (sheet : Image) (m : List (AnimationType × List Image))
    (ks : List AnimationType) (y W H spacing : Nat) : Image :=
  match ks with
  | [] => sheet
  | k :: rest =>
    pasteRows (pasteStrip sheet ((dictLookup k m).getD []) 0 y W spacing)
      m rest (y + H + spacing) W H spacing

/-- Embeds create_combined_sprite_sheet of spritesheet.py: an empty mapping
raises ValueError (none); an empty first frame list makes first_frames[0]
raise IndexError (none); otherwise the kinds are visited in the order
sorted(keys, key=value), the cell size is the size of the first frame of the
first inserted animation, the width spans the largest frame count, and each
animation is pasted as one row. -/
def create_combined_sprite_sheet (animation_frames : List (AnimationType × List Image))
    (spacing : Nat) (background_color : Pixel) : Option Image :=
  match animation_frames with
  | [] => none
  | (_, first_frames) :: _ =>
    match first_frames with
    | [] => none
    | f0 :: _ =>
      let animation_types := sortKeys (animation_frames.map Prod.fst)
      let frame_width := f0.width
      let frame_height := f0.height
      let max_frames := maxList (animation_frames.map (fun kv => kv.2.length))
      let total_width := max_frames * frame_width + (max_frames - 1) * spacing
      let total_height := animation_types.length * frame_height +
        (animation_types.length - 1) * spacing
      some (pasteRows (Image.new Mode.RGBA total_width total_height background_color)
        animation_frames animation_types 0 frame_width frame_height spacing)

/-- The paste loop of create_grid_layout: image idx goes to column idx mod
cols and row idx div cols, with spacing padding on all four sides. -/
def pasteGrid (grid : Image) (images : List Image) (idx cols W H spacing : Nat) : Image :=
  match images with
  | [] => grid
  | im :: rest =>
    pasteGrid (grid.paste im (spacing + (idx % cols) * (W + spacing))
        (spacing + (idx / cols) * (H + spacing)))
      rest (idx + 1) cols W H spacing

/-- Embeds create_grid_layout of spritesheet.py: an empty image list raises
ValueError (none); otherwise a new RGBA grid sized from the first image with
ceil(N / cols) rows and outer padding, images pasted in row-major order. -/
def create_grid_layout (images : List Image) (cols : Nat) (spacing : Nat)
    (background_color : Pixel) : Option Image :=
  match images with
  | [] => none
  | im0 :: _ =>
    let img_width := im0.width
    let img_height := im0.height
    let rows := (images.length + cols - 1) / cols
    let total_width := cols * img_width + (cols + 1) * spacing
    let total_height := rows * img_height + (rows + 1) * spacing
    some (pasteGrid (Image.new Mode.RGBA total_width total_height background_color)
      images 0 cols img_width img_height spacing)

/-- Embeds the fields of PackMetadata of models.py that create_pack_preview
reads for its header text. -/
structure PackMetadata where
  pack_name : String
  theme_name : String
  resolution : Nat × Nat
  num_creatures : Nat
  num_variants : Nat

/-- The background color (26, 26, 26, 255) used by create_pack_preview for
both the grid and the final canvas. -/
def previewBg : Pixel := ⟨26, 26, 26, 255⟩

/-- Embeds create_pack_preview of preview.py.  The two draw.text calls (and
the font loading with its built-in fallback) only repaint pixels of the
header canvas through an ImageDraw handle; glyph rasterization depends on
external font files, so it is modelled by the parameter drawHeader, an
arbitrary repainting of the canvas (the theorems assume only that it
preserves dimensions, which ImageDraw guarantees).  An empty sheet list
raises ValueError (none); otherwise the first 20 sheets each contribute a
square crop of side equal to the sheet height taken at the left edge,
upscaled by scale, laid out by create_grid_layout with spacing 8 * scale,
below a header band of height 80 * scale; the optional file write is
external I O and is not part of the image semantics. -/
def create_pack_preview (drawHeader : PackMetadata → Image → Image)
    (sprite_sheets : List Image) (pack_metadata : PackMetadata)
    (scale : Nat) (cols : Nat) : Option Image :=
  match sprite_sheets with
  | [] => none
  | _ :: _ =>
    let preview_sprites := (sprite_sheets.take 20).map (fun sheet =>
      upscale_nearest_neighbor (sheet.crop 0 0 sheet.height sheet.height) scale)
    (create_grid_layout preview_sprites cols (8 * scale) previewBg).map (fun grid =>
      let header_height := 80 * scale
      let base := Image.new Mode.RGBA grid.width (grid.height + header_height) previewBg
      let drawn := drawHeader pack_metadata base
      drawn.paste grid 0 header_height)

/-- Embeds pipeline.py line 85: hue_shift = variant_index * 60. -/
def pipelineHueShift (variant_index : Nat) : ℤ :=
  (variant_index : ℤ) * 60

/-- Embeds pipeline.py line 86: saturation_factor = 0.8 + variant_index * 0.2
(the float literals are the decimals 4/5 and 1/5; the sums arising for the
variant indices of a pack are exact in double precision). -/
def pipelineSaturationFactor (variant_index : Nat) : ℚ :=
  4 / 5 + (variant_index : ℚ) * (1 / 5)

/-- Modelled from the spec: the hue shift the specification prescribes,
variant_index * 60 degrees reduced modulo 360, normalized from the 0..360
degree circle to the 0..255 eight-bit hue channel (256 steps), kept as an
exact rational so no rounding convention is imposed.  This definition follows
the wording of the spec and exists only to be compared with the shift the
code applies. -/
def specHueShiftChannel (variant_index : Nat) : ℚ :=
  ((variant_index * 60) % 360 : Nat) * 256 / 360

/-- Concrete one-pixel RGBA image whose color (255, 0, 1) does not survive
the 8-bit HSV round trip. -/
def identityCexImage : Image :=
  ⟨Mode.RGBA, 1, 1, fun _ _ => ⟨255, 0, 1, 255⟩⟩

/-- Concrete one-pixel RGBA image whose color (255, 0, 0) is a fixed point of
the 8-bit HSV round trip. -/
def roundtripFixedImage : Image :=
  ⟨Mode.RGBA, 1, 1, fun _ _ => ⟨255, 0, 0, 255⟩⟩

/-- Concrete one-pixel RGBA image with a partial alpha value. -/
def dimsAlphaImage : Image :=
  ⟨Mode.RGBA, 1, 1, fun _ _ => ⟨30, 40, 50, 60⟩⟩

/-- Concrete 1 by 1 frame, for dimension-mismatch inputs. -/
def mismatchA : Image :=
  ⟨Mode.RGBA, 1, 1, fun _ _ => ⟨10, 20, 30, 255⟩⟩

/-- Concrete 2 by 2 frame, for dimension-mismatch inputs. -/
def mismatchB : Image :=
  ⟨Mode.RGBA, 2, 2, fun _ _ => ⟨40, 50, 60, 255⟩⟩

/-- Concrete opaque red 1 by 1 frame. -/
def stripFrameA : Image :=
  ⟨Mode.RGBA, 1, 1, fun _ _ => ⟨200, 0, 0, 255⟩⟩

/-- Concrete opaque green 1 by 1 frame. -/
def stripFrameB : Image :=
  ⟨Mode.RGBA, 1, 1, fun _ _ => ⟨0, 200, 0, 255⟩⟩

/-- Concrete 2 by 1 image whose two pixels differ. -/
def blockImage : Image :=
  ⟨Mode.RGBA, 2, 1, fun x _ => ⟨x, 7, 8, 255⟩⟩

/-- Concrete frame for the idle row of a combined sheet. -/
def rowFrameI : Image :=
  ⟨Mode.RGBA, 1, 1, fun _ _ => ⟨1, 0, 0, 255⟩⟩

/-- Concrete frame for the walk row of a combined sheet. -/
def rowFrameW : Image :=
  ⟨Mode.RGBA, 1, 1, fun _ _ => ⟨2, 0, 0, 255⟩⟩

/-- Concrete frame for the attack row of a combined sheet. -/
def rowFrameA : Image :=
  ⟨Mode.RGBA, 1, 1, fun _ _ => ⟨3, 0, 0, 255⟩⟩

/-- Concrete one-pixel image in RGB mode (no alpha band). -/
def rgbModeImage : Image :=
  ⟨Mode.RGB, 1, 1, fun _ _ => ⟨9, 9, 9, 255⟩⟩

/-- Concrete one-pixel sprite sheet for preview inputs. -/
def previewSheet : Image :=
  ⟨Mode.RGBA, 1, 1, fun _ _ => ⟨5, 6, 7, 255⟩⟩

/-- Concrete pack metadata for preview inputs. -/
def samplePackMetadata : PackMetadata :=
  ⟨"pack", "theme", (1, 1), 1, 1⟩

/-- Header painting that leaves the canvas unchanged, a legitimate
instantiation of the drawHeader parameter. -/
def idDrawHeader : PackMetadata → Image → Image :=
  fun _ img => img

@[simp]
theorem Image.convert_mode (img : Image) (m : Mode) : (img.convert m).mode = m := by
  unfold Image.convert
  split
  · assumption
  · cases m <;> rfl

@[simp]
theorem Image.convert_width (img : Image) (m : Mode) : (img.convert m).width = img.width := by
  unfold Image.convert
  split
  · rfl
  · cases m <;> rfl

@[simp]
theorem Image.convert_height (img : Image) (m : Mode) : (img.convert m).height = img.height := by
  unfold Image.convert
  split
  · rfl
  · cases m <;> rfl

@[simp]
theorem Image.paste_mode (dst src : Image) (x0 y0 : Nat) :
    (dst.paste src x0 y0).mode = dst.mode := rfl

@[simp]
theorem Image.paste_width (dst src : Image) (x0 y0 : Nat) :
    (dst.paste src x0 y0).width = dst.width := rfl

@[simp]
theorem Image.paste_height (dst src : Image) (x0 y0 : Nat) :
    (dst.paste src x0 y0).height = dst.height := rfl

theorem pasteStrip_mode (frames : List Image) (sheet : Image) (x y W s : Nat) :
    (pasteStrip sheet frames x y W s).mode = sheet.mode := by
  induction frames generalizing sheet x with
  | nil => rfl
  | cons f fs ih => rw [pasteStrip, ih]; rfl

theorem pasteStrip_width (frames : List Image) (sheet : Image) (x y W s : Nat) :
    (pasteStrip sheet frames x y W s).width = sheet.width := by
  induction frames generalizing sheet x with
  | nil => rfl
  | cons f fs ih => rw [pasteStrip, ih]; rfl

theorem pasteStrip_height (frames : List Image) (sheet : Image) (x y W s : Nat) :
    (pasteStrip sheet frames x y W s).height = sheet.height := by
  induction frames generalizing sheet x with
  | nil => rfl
  | cons f fs ih => rw [pasteStrip, ih]; rfl

theorem pasteRows_mode (ks : List AnimationType) (m : List (AnimationType × List Image))
    (sheet : Image) (y W H s : Nat) :
    (pasteRows sheet m ks y W H s).mode = sheet.mode := by
  induction ks generalizing sheet y with
  | nil => rfl
  | cons k rest ih => rw [pasteRows, ih, pasteStrip_mode]

theorem pasteRows_width (ks : List AnimationType) (m : List (AnimationType × List Image))
    (sheet : Image) (y W H s : Nat) :
    (pasteRows sheet m ks y W H s).width = sheet.width := by
  induction ks generalizing sheet y with
  | nil => rfl
  | cons k rest ih => rw [pasteRows, ih, pasteStrip_width]

theorem pasteRows_height (ks : List AnimationType) (m : List (AnimationType × List Image))
    (sheet : Image) (y W H s : Nat) :
    (pasteRows sheet m ks y W H s).height = sheet.height := by
  induction ks generalizing sheet y with
  | nil => rfl
  | cons k rest ih => rw [pasteRows, ih, pasteStrip_height]

theorem pasteGrid_mode (images : List Image) (grid : Image) (idx cols W H s : Nat) :
    (pasteGrid grid images idx cols W H s).mode = grid.mode := by
  induction images generalizing grid idx with
  | nil => rfl
  | cons im rest ih => rw [pasteGrid, ih]; rfl

theorem pasteGrid_width (images : List Image) (grid : Image) (idx cols W H s : Nat) :
    (pasteGrid grid images idx cols W H s).width = grid.width := by
  induction images generalizing grid idx with
  | nil => rfl
  | cons im rest ih => rw [pasteGrid, ih]; rfl

theorem pasteGrid_height (images : List Image) (grid : Image) (idx cols W H s : Nat) :
    (pasteGrid grid images idx cols W H s).height = grid.height := by
  induction images generalizing grid idx with
  | nil => rfl
  | cons im rest ih => rw [pasteGrid, ih]; rfl

theorem pasteStrip_px_lt_x (frames : List Image) (sheet : Image) (x y W s p q : Nat)
    (hp : p < x) :
    (pasteStrip sheet frames x y W s).px p q = sheet.px p q := by
  induction frames generalizing sheet x with
  | nil => rfl
  | cons f fs ih =>
    rw [pasteStrip, ih _ _ (by omega)]
    simp only [Image.paste]
    rw [if_neg (by omega)]

theorem pasteStrip_px_lt_y (frames : List Image) (sheet : Image) (x y W s p q : Nat)
    (hq : q < y) :
    (pasteStrip sheet frames x y W s).px p q = sheet.px p q := by
  induction frames generalizing sheet x with
  | nil => rfl
  | cons f fs ih =>
    rw [pasteStrip, ih _ _]
    simp only [Image.paste]
    rw [if_neg (by omega)]

theorem pasteStrip_px_ge_y (frames : List Image) (sheet : Image) (x y W H s p q : Nat)
    (hH : ∀ f ∈ frames, f.height = H) (hq : y + H ≤ q) :
    (pasteStrip sheet frames x y W s).px p q = sheet.px p q := by
  induction frames generalizing sheet x with
  | nil => rfl
  | cons f fs ih =>
    rw [pasteStrip, ih _ _ (fun g hg => hH g (by simp [hg]))]
    have hf : f.height = H := hH f (by simp)
    simp only [Image.paste]
    rw [if_neg (by rw [hf]; omega)]

theorem pasteStrip_px_get (y W H s dx dy : Nat) (hdx : dx < W) (hdy : dy < H)
    (frames : List Image) :
    ∀ (sheet : Image) (x i : Nat) (f : Image),
      frames[i]? = some f →
      (∀ g ∈ frames, g.width = W ∧ g.height = H) →
      (pasteStrip sheet frames x y W s).px (x + i * (W + s) + dx) (y + dy) =
        pastePx (sheet.px (x + i * (W + s) + dx) (y + dy)) (f.px dx dy)
          (f.mode == Mode.RGBA) := by
  induction frames with
  | nil =>
    intro sheet x i f hif _
    simp at hif
  | cons f0 fs ih =>
    intro sheet x i f hif hdim
    match i with
    | 0 =>
      have hf : f0 = f := by simpa using hif
      subst hf
      have hw := (hdim f0 (by simp)).1
      have hh := (hdim f0 (by simp)).2
      rw [pasteStrip, pasteStrip_px_lt_x _ _ _ _ _ _ _ _ (by omega)]
      simp only [Image.paste]
      rw [if_pos (by rw [hw, hh]; omega)]
      have e1 : x + 0 * (W + s) + dx - x = dx := by omega
      have e2 : y + dy - y = dy := by omega
      rw [e1, e2]
    | i + 1 =>
      have hcoord : x + (i + 1) * (W + s) + dx = (x + W + s) + i * (W + s) + dx := by ring
      rw [pasteStrip, hcoord,
        ih (sheet.paste f0 x y) (x + W + s) i f (by simpa using hif)
          (fun g hg => hdim g (by simp [hg]))]
      have hw := (hdim f0 (by simp)).1
      simp only [Image.paste]
      rw [if_neg (by rw [hw]; omega)]

theorem pasteRows_px_lt_y (ks : List AnimationType) (m : List (AnimationType × List Image))
    (sheet : Image) (y W H s p q : Nat) (hq : q < y) :
    (pasteRows sheet m ks y W H s).px p q = sheet.px p q := by
  induction ks generalizing sheet y with
  | nil => rfl
  | cons k rest ih =>
    rw [pasteRows, ih _ _ (by omega), pasteStrip_px_lt_y _ _ _ _ _ _ _ _ hq]

theorem dictLookup_mem (k : AnimationType) (m : List (AnimationType × List Image))
    (fs : List Image) (h : dictLookup k m = some fs) : (k, fs) ∈ m := by
  induction m with
  | nil => simp [dictLookup] at h
  | cons kv rest ih =>
    obtain ⟨a, v⟩ := kv
    by_cases hka : k = a
    · subst hka
      simp [dictLookup] at h
      simp [h]
    · simp [dictLookup, hka] at h
      simp [ih h]

theorem pasteRows_px_get (W H s dx dy : Nat) (hdx : dx < W) (hdy : dy < H)
    (m : List (AnimationType × List Image))
    (hdim : ∀ kv ∈ m, ∀ g ∈ kv.2, g.width = W ∧ g.height = H)
    (ks : List AnimationType) :
    ∀ (sheet : Image) (y j : Nat) (k : AnimationType) (fs : List Image) (i : Nat) (f : Image),
      ks[j]? = some k →
      dictLookup k m = some fs →
      fs[i]? = some f →
      (pasteRows sheet m ks y W H s).px (i * (W + s) + dx) (y + j * (H + s) + dy) =
        pastePx (sheet.px (i * (W + s) + dx) (y + j * (H + s) + dy)) (f.px dx dy)
          (f.mode == Mode.RGBA) := by
  induction ks with
  | nil =>
    intro sheet y j k fs i f hj _ _
    simp at hj
  | cons k0 rest ih =>
    intro sheet y j k fs i f hj hlk hif
    match j with
    | 0 =>
      have hk : k0 = k := by simpa using hj
      subst hk
      rw [pasteRows, pasteRows_px_lt_y _ _ _ _ _ _ _ _ _ (by omega)]
      rw [hlk]
      have e0 : i * (W + s) + dx = 0 + i * (W + s) + dx := by omega
      have e2 : y + 0 * (H + s) + dy = y + dy := by ring
      rw [e0, e2, Option.getD_some,
        pasteStrip_px_get y W H s dx dy hdx hdy fs sheet 0 i f hif
          (fun g hg => hdim (k0, fs) (dictLookup_mem k0 m fs hlk) g hg)]
    | j + 1 =>
      have hfr : ∀ g ∈ (dictLookup k0 m).getD [], g.height = H := by
        cases hdl : dictLookup k0 m with
        | none => simp
        | some fs0 =>
          rw [Option.getD_some]
          intro g hg
          exact (hdim (k0, fs0) (dictLookup_mem k0 m fs0 hdl) g hg).2
      have hcoord : y + (j + 1) * (H + s) + dy = (y + H + s) + j * (H + s) + dy := by ring
      rw [pasteRows, hcoord,
        ih (pasteStrip sheet ((dictLookup k0 m).getD []) 0 y W s) (y + H + s) j k fs i f
          (by simpa using hj) hlk hif,
        pasteStrip_px_ge_y _ _ _ _ _ H _ _ _ hfr (by omega)]

theorem sortKeys_of_nodup (l : List AnimationType) (h : l.Nodup) :
    sortKeys l =
      [AnimationType.ATTACK, AnimationType.IDLE, AnimationType.WALK].filter
        (fun k => decide (k ∈ l)) := by
  rcases l with _ | ⟨a, _ | ⟨b, _ | ⟨c, _ | ⟨d, t⟩⟩⟩⟩
  · rfl
  · revert h; cases a <;> decide
  · revert h; cases a <;> cases b <;> decide
  · revert h; cases a <;> cases b <;> cases c <;> decide
  · exfalso
    simp only [List.nodup_cons, List.mem_cons] at h
    cases a <;> cases b <;> cases c <;> cases d <;> simp_all

theorem center_div (W k x : Nat) (hW : 0 < W) (hk : 0 < k) (hx : x < W * k) :
    (2 * x + 1) * W / (2 * (W * k)) = x / k := by
  have h2 : (2 * x + 1) * W = 2 * (W * k) * (x / k) + (2 * (x % k) + 1) * W := by
    have h1 : k * (x / k) + x % k = x := Nat.div_add_mod x k
    calc (2 * x + 1) * W = (2 * (k * (x / k) + x % k) + 1) * W := by rw [h1]
    _ = 2 * (W * k) * (x / k) + (2 * (x % k) + 1) * W := by ring
  have h3 : (2 * (x % k) + 1) * W < 2 * (W * k) := by
    have hm : x % k < k := Nat.mod_lt _ hk
    have h4 : 2 * (x % k) + 1 < 2 * k := by omega
    calc (2 * (x % k) + 1) * W < (2 * k) * W := mul_lt_mul_of_pos_right h4 hW
    _ = 2 * (W * k) := by ring
  rw [h2, Nat.mul_add_div (by positivity), Nat.div_eq_of_lt h3, add_zero]

theorem upscale_px_div (img : Image) (k x y : Nat) (hx : x < img.width * k)
    (hy : y < img.height * k) :
    (upscale_nearest_neighbor img k).px x y = img.px (x / k) (y / k) := by
  have hk : 0 < k := by
    rcases Nat.eq_zero_or_pos k with h0 | h
    · rw [h0, Nat.mul_zero] at hx; omega
    · exact h
  have hW : 0 < img.width := by
    rcases Nat.eq_zero_or_pos img.width with h0 | h
    · rw [h0, Nat.zero_mul] at hx; omega
    · exact h
  have hH : 0 < img.height := by
    rcases Nat.eq_zero_or_pos img.height with h0 | h
    · rw [h0, Nat.zero_mul] at hy; omega
    · exact h
  show img.px ((2 * x + 1) * img.width / (2 * (img.width * k)))
      ((2 * y + 1) * img.height / (2 * (img.height * k))) = img.px (x / k) (y / k)
  rw [center_div img.width k x hW hk hx, center_div img.height k y hH hk hy]

theorem rgb2hsv_r_le (p : Pixel) : (rgb2hsv p).r ≤ 255 := by
  simp only [rgb2hsv]
  split
  · exact Nat.zero_le _
  · exact min_le_left _ _

theorem rgb2hsv_g_le (p : Pixel) : (rgb2hsv p).g ≤ 255 := by
  simp only [rgb2hsv]
  split
  · exact Nat.zero_le _
  · exact min_le_left _ _

theorem variantPx_zero_one (p : Pixel) (hr : p.r ≤ 255) (hg : p.g ≤ 255) :
    variantPx 0 1 p = p := by
  have h2 : pyIntMul p.g 1 = (p.g : ℤ) := by
    simp [pyIntMul, Rat.num_one, Rat.den_one, Int.tdiv_one]
  have h1 : (((p.r : ℤ) + 0).emod 256).toNat = p.r := by
    show (((p.r : ℤ) + 0) % 256).toNat = p.r
    omega
  have h3 : (min 255 (max 0 (p.g : ℤ))).toNat = p.g := by omega
  simp only [variantPx, h2, h1, h3]

theorem Pixel.value_set_a (p : Pixel) (v : Nat) :
    Pixel.value { p with a := v } = Pixel.value p := rfl

theorem variantPx_b (hue_shift : ℤ) (saturation_factor : ℚ) (p : Pixel) :
    (variantPx hue_shift saturation_factor p).b = p.b := rfl

theorem rgb2hsv_b (p : Pixel) : (rgb2hsv p).b = max p.r (max p.g p.b) := by
  simp only [rgb2hsv]
  split <;> rfl

theorem hsv2rgb_value (p : Pixel) : Pixel.value (hsv2rgb p) = p.b := by
  by_cases hg : p.g = 0
  · simp [hsv2rgb, hg, Pixel.value]
  · have hpp : min 255 ((2 * p.b * (255 - p.g) + 255) / 510) ≤ p.b := by
      have hlt : 2 * p.b * (255 - p.g) + 255 < (p.b + 1) * 510 := by
        have h1 : 2 * p.b * (255 - p.g) ≤ 2 * p.b * 254 :=
          Nat.mul_le_mul_left (2 * p.b) (by omega)
        have h2 : 2 * p.b * 254 = 508 * p.b := by ring
        have h3 : (p.b + 1) * 510 = 510 * p.b + 510 := by ring
        omega
      have hdiv : (2 * p.b * (255 - p.g) + 255) / 510 < p.b + 1 :=
        (Nat.div_lt_iff_lt_mul (by omega)).mpr hlt
      omega
    have hqq : min 255 ((2 * p.b * (65025 - p.g * (p.r * 6 % 255)) + 65025) / 130050) ≤
        p.b := by
      have hlt : 2 * p.b * (65025 - p.g * (p.r * 6 % 255)) + 65025 <
          (p.b + 1) * 130050 := by
        have h1 : 2 * p.b * (65025 - p.g * (p.r * 6 % 255)) ≤ 2 * p.b * 65025 :=
          Nat.mul_le_mul_left (2 * p.b) (by omega)
        have h2 : 2 * p.b * 65025 = 130050 * p.b := by ring
        have h3 : (p.b + 1) * 130050 = 130050 * p.b + 130050 := by ring
        omega
      have hdiv : (2 * p.b * (65025 - p.g * (p.r * 6 % 255)) + 65025) / 130050 <
          p.b + 1 :=
        (Nat.div_lt_iff_lt_mul (by omega)).mpr hlt
      omega
    have htt : min 255 ((2 * p.b * (65025 - p.g * (255 - p.r * 6 % 255)) + 65025) /
        130050) ≤ p.b := by
      have hlt : 2 * p.b * (65025 - p.g * (255 - p.r * 6 % 255)) + 65025 <
          (p.b + 1) * 130050 := by
        have h1 : 2 * p.b * (65025 - p.g * (255 - p.r * 6 % 255)) ≤ 2 * p.b * 65025 :=
          Nat.mul_le_mul_left (2 * p.b) (by omega)
        have h2 : 2 * p.b * 65025 = 130050 * p.b := by ring
        have h3 : (p.b + 1) * 130050 = 130050 * p.b + 130050 := by ring
        omega
      have hdiv : (2 * p.b * (65025 - p.g * (255 - p.r * 6 % 255)) + 65025) / 130050 <
          p.b + 1 :=
        (Nat.div_lt_iff_lt_mul (by omega)).mpr hlt
      omega
    simp only [hsv2rgb, if_neg hg]
    split <;> (simp only [Pixel.value]; omega)

@[simp]
theorem Image.putalpha_mode (img : Image) (al : Nat → Nat → Nat) :
    (img.putalpha al).mode = Mode.RGBA := rfl

@[simp]
theorem Image.putalpha_width (img : Image) (al : Nat → Nat → Nat) :
    (img.putalpha al).width = img.width := rfl

@[simp]
theorem Image.putalpha_height (img : Image) (al : Nat → Nat → Nat) :
    (img.putalpha al).height = img.height := rfl

theorem Image.convert_rgb_px (img : Image) (h : img.mode ≠ Mode.RGB) (x y : Nat) :
    (img.convert Mode.RGB).px x y = toRGBPixel img.mode (img.px x y) := by
  unfold Image.convert
  rw [if_neg h]

theorem Image.convert_rgba_px (img : Image) (h : img.mode ≠ Mode.RGBA) (x y : Nat) :
    (img.convert Mode.RGBA).px x y = { toRGBPixel img.mode (img.px x y) with a := 255 } := by
  unfold Image.convert
  rw [if_neg h]

theorem Image.convert_hsv_px (img : Image) (h : img.mode ≠ Mode.HSV) (x y : Nat) :
    (img.convert Mode.HSV).px x y = rgb2hsv (toRGBPixel img.mode (img.px x y)) := by
  unfold Image.convert
  rw [if_neg h]

theorem apply_color_variant_mode (img : Image) (hs : ℤ) (sf : ℚ) :
    (apply_color_variant img hs sf).mode = Mode.RGBA := by
  simp only [apply_color_variant]
  split
  · rfl
  · exact Image.convert_mode _ _

theorem apply_color_variant_width (img : Image) (hs : ℤ) (sf : ℚ) :
    (apply_color_variant img hs sf).width = img.width := by
  simp only [apply_color_variant]
  split <;> simp

theorem apply_color_variant_height (img : Image) (hs : ℤ) (sf : ℚ) :
    (apply_color_variant img hs sf).height = img.height := by
  simp only [apply_color_variant]
  split <;> simp

theorem apply_color_variant_px_rgba (img : Image) (hm : img.mode = Mode.RGBA)
    (hs : ℤ) (sf : ℚ) (x y : Nat) :
    (apply_color_variant img hs sf).px x y =
      { hsv2rgb (variantPx hs sf (rgb2hsv { img.px x y with a := 255 })) with
        a := (img.px x y).a } := by
  simp only [apply_color_variant, if_pos hm, Image.putalpha]
  rw [Image.convert_rgba_px _ (by simp)]
  rw [Image.convert_rgb_px _ (by simp)]
  simp only [toRGBPixel]
  rw [Image.convert_hsv_px _ (by simp)]
  rw [Image.convert_rgb_px _ (by simp [hm])]
  simp [toRGBPixel, hm]

theorem apply_color_variant_px_alpha_opaque (img : Image) (hm : img.mode ≠ Mode.RGBA)
    (hs : ℤ) (sf : ℚ) (x y : Nat) :
    ((apply_color_variant img hs sf).px x y).a = 255 := by
  simp only [apply_color_variant, if_neg hm]
  rw [Image.convert_rgba_px _ (by simp)]

/-- C8: an empty frame list, an empty animation mapping, an empty image list
and an empty sprite sheet list make create_animation_sprite_sheet,
create_combined_sprite_sheet, create_grid_layout and create_pack_preview
fail immediately with the invalid-input error (modelled as none), producing
no image. -/
theorem empty_inputs_rejected (spacing : Nat) (bg : Pixel) (cols scale : Nat)
    (drawHeader : PackMetadata → Image → Image) (meta : PackMetadata) :
    create_animation_sprite_sheet [] spacing bg = none ∧
    create_combined_sprite_sheet [] spacing bg = none ∧
    create_grid_layout [] cols spacing bg = none ∧
    create_pack_preview drawHeader [] meta scale cols = none :=
  ⟨rfl, rfl, rfl, rfl⟩

/-- C7: for an image of size (W, H) and an integer factor k of at least 1,
upscale_nearest_neighbor returns an image of size (W * k, H * k) in which
every k by k block is the constant color of the corresponding source pixel. -/
theorem upscale_nearest_blocks (img : Image) (k : Nat) (hk : 1 ≤ k) :
    (upscale_nearest_neighbor img k).width = img.width * k ∧
    (upscale_nearest_neighbor img k).height = img.height * k ∧
    ∀ i j dx dy, i < img.width → j < img.height → dx < k → dy < k →
      (upscale_nearest_neighbor img k).px (i * k + dx) (j * k + dy) = img.px i j := by
  refine ⟨rfl, rfl, ?_⟩
  intro i j dx dy hi hj hdx hdy
  have hbx : i * k + dx < img.width * k := by
    have h1 : (i + 1) * k ≤ img.width * k := Nat.mul_le_mul_right k hi
    rw [Nat.succ_mul] at h1
    omega
  have hby : j * k + dy < img.height * k := by
    have h1 : (j + 1) * k ≤ img.height * k := Nat.mul_le_mul_right k hj
    rw [Nat.succ_mul] at h1
    omega
  rw [upscale_px_div img k _ _ hbx hby]
  have ex : (i * k + dx) / k = i := by
    rw [Nat.mul_comm i k, Nat.mul_add_div (by omega), Nat.div_eq_of_lt hdx, add_zero]
  have ey : (j * k + dy) / k = j := by
    rw [Nat.mul_comm j k, Nat.mul_add_div (by omega), Nat.div_eq_of_lt hdy, add_zero]
  rw [ex, ey]

/-- Witness for C7 at a concrete image and factor 2. -/
theorem upscale_nearest_blocks_witness :
    1 ≤ 2 ∧
    ((upscale_nearest_neighbor blockImage 2).width = blockImage.width * 2 ∧
     (upscale_nearest_neighbor blockImage 2).height = blockImage.height * 2 ∧
     ∀ i j dx dy, i < blockImage.width → j < blockImage.height → dx < 2 → dy < 2 →
       (upscale_nearest_neighbor blockImage 2).px (i * 2 + dx) (j * 2 + dy) =
         blockImage.px i j) :=
  ⟨by decide, upscale_nearest_blocks blockImage 2 (by decide)⟩

/-- C5 counterexample: two frames of inconsistent dimensions for which both
sheet composers succeed (return an image) instead of raising an error. -/
theorem sheet_composers_accept_mismatched_frames :
    mismatchA.width ≠ mismatchB.width ∧
    (create_animation_sprite_sheet [mismatchA, mismatchB] 0 ⟨0, 0, 0, 0⟩).isSome = true ∧
    (create_combined_sprite_sheet
        [(AnimationType.IDLE, [mismatchA]), (AnimationType.WALK, [mismatchB])] 0
        ⟨0, 0, 0, 0⟩).isSome = true :=
  ⟨by decide, rfl, rfl⟩

/-- C5 amended: the sheet composers perform no dimension check at all.  For
any non-empty frame list, create_animation_sprite_sheet returns a sheet whose
layout is taken from the first frame alone, whatever the dimensions of the
other frames; for any mapping whose first animation is non-empty,
create_combined_sprite_sheet likewise returns a sheet.  Only empty inputs
raise; mismatched frames are silently pasted. -/
theorem sheet_composers_no_dimension_check (f0 : Image) (fs : List Image)
    (spacing : Nat) (bg : Pixel) (k0 : AnimationType) (g0 : Image) (gs : List Image)
    (rest : List (AnimationType × List Image)) :
    (∃ sheet, create_animation_sprite_sheet (f0 :: fs) spacing bg = some sheet ∧
      sheet.width = (fs.length + 1) * f0.width + fs.length * spacing ∧
      sheet.height = f0.height) ∧
    (∃ sheet, create_combined_sprite_sheet ((k0, g0 :: gs) :: rest) spacing bg = some sheet) := by
  constructor
  · refine ⟨_, rfl, ?_, ?_⟩
    · rw [pasteStrip_width]
      simp [Image.new]
    · rw [pasteStrip_height]
      rfl
  · exact ⟨_, rfl⟩

/-- C2: the pipeline passes hue_shift = variant_index * 60, a value the spec
reads as degrees on the 0..360 circle to be normalized into the 0..255 hue
channel; but apply_color_variant adds it to the 8-bit hue channel raw, modulo
256.  At variant 1 and a pixel of hue channel 0, the code produces hue
channel 60 (which is 84.375 degrees), while the normalized 60 degree shift of
the spec is the channel value 128/3 (about 42.7), not 60. -/
theorem variant_hue_shift_unit_bug :
    pipelineHueShift 1 = 60 ∧
    (variantPx (pipelineHueShift 1) (pipelineSaturationFactor 1) ⟨0, 255, 255, 255⟩).r = 60 ∧
    specHueShiftChannel 1 = 128 / 3 ∧
    (128 / 3 : ℚ) ≠ 60 := by
  refine ⟨by decide, by decide, ?_, by norm_num⟩
  norm_num [specHueShiftChannel]

/-- C3 counterexample: with hue shift 0 and saturation factor 1, the output
pixel of apply_color_variant differs from the input pixel on the concrete
image whose only pixel is (255, 0, 1, 255): the 8-bit HSV round trip maps it
to (255, 0, 6, 255), so the transform is not the identity. -/
theorem apply_variant_zero_not_identity :
    (apply_color_variant identityCexImage 0 1).px 0 0 ≠ identityCexImage.px 0 0 := by
  decide

/-- C3 amended: apply_color_variant with hue shift 0 and saturation factor 1
preserves dimensions and alpha and acts on each pixel exactly as the 8-bit
RGB to HSV to RGB round trip (the HSV-stage transform itself is the
identity); consequently it is pixel-for-pixel the identity precisely on
pixels whose color is a fixed point of that round trip, which not every
color is. -/
theorem apply_variant_zero_is_hsv_roundtrip (img : Image) (hm : img.mode = Mode.RGBA) :
    (apply_color_variant img 0 1).width = img.width ∧
    (apply_color_variant img 0 1).height = img.height ∧
    (∀ x y, (apply_color_variant img 0 1).px x y =
      { hsv2rgb (rgb2hsv { img.px x y with a := 255 }) with a := (img.px x y).a }) ∧
    (∀ x y, hsv2rgb (rgb2hsv { img.px x y with a := 255 }) = { img.px x y with a := 255 } →
      (apply_color_variant img 0 1).px x y = img.px x y) := by
  have hpx : ∀ x y, (apply_color_variant img 0 1).px x y =
      { hsv2rgb (rgb2hsv { img.px x y with a := 255 }) with a := (img.px x y).a } := by
    intro x y
    rw [apply_color_variant_px_rgba img hm 0 1 x y,
      variantPx_zero_one _ (rgb2hsv_r_le _) (rgb2hsv_g_le _)]
  refine ⟨apply_color_variant_width _ _ _, apply_color_variant_height _ _ _, hpx, ?_⟩
  intro x y hfix
  rw [hpx x y, hfix]

/-- Witness for C3 amended at a concrete image whose pixel round-trips. -/
theorem apply_variant_zero_is_hsv_roundtrip_witness :
    roundtripFixedImage.mode = Mode.RGBA ∧
    ((apply_color_variant roundtripFixedImage 0 1).width = roundtripFixedImage.width ∧
     (apply_color_variant roundtripFixedImage 0 1).height = roundtripFixedImage.height ∧
     (∀ x y, (apply_color_variant roundtripFixedImage 0 1).px x y =
       { hsv2rgb (rgb2hsv { roundtripFixedImage.px x y with a := 255 }) with
         a := (roundtripFixedImage.px x y).a }) ∧
     (∀ x y, hsv2rgb (rgb2hsv { roundtripFixedImage.px x y with a := 255 }) =
         { roundtripFixedImage.px x y with a := 255 } →
       (apply_color_variant roundtripFixedImage 0 1).px x y =
         roundtripFixedImage.px x y)) :=
  ⟨rfl, apply_variant_zero_is_hsv_roundtrip roundtripFixedImage rfl⟩

/-- C4: for every input image and every hue shift and saturation factor, the
output of apply_color_variant has the dimensions of the input, and on an
RGBA input the alpha channel of every pixel is exactly the alpha of the
input pixel, and only hue and saturation of the color channels may change:
the HSV value component (the maximum of the three color channels) of every
output pixel equals that of the input pixel. -/
theorem apply_variant_preserves_dims_and_alpha (img : Image) (hue_shift : ℤ)
    (saturation_factor : ℚ) :
    (apply_color_variant img hue_shift saturation_factor).width = img.width ∧
    (apply_color_variant img hue_shift saturation_factor).height = img.height ∧
    (img.mode = Mode.RGBA →
      ∀ x y, ((apply_color_variant img hue_shift saturation_factor).px x y).a =
        (img.px x y).a) ∧
    (img.mode = Mode.RGBA →
      ∀ x y,
        Pixel.value ((apply_color_variant img hue_shift saturation_factor).px x y) =
          Pixel.value (img.px x y)) := by
  refine ⟨apply_color_variant_width _ _ _, apply_color_variant_height _ _ _, ?_, ?_⟩
  · intro hm x y
    rw [apply_color_variant_px_rgba img hm hue_shift saturation_factor x y]
  · intro hm x y
    rw [apply_color_variant_px_rgba img hm hue_shift saturation_factor x y,
      Pixel.value_set_a, hsv2rgb_value, variantPx_b, rgb2hsv_b]
    rfl

/-- Witness for C4 at a concrete image with a partial alpha, hue shift 120
and saturation factor 3/2. -/
theorem apply_variant_preserves_dims_and_alpha_witness :
    (apply_color_variant dimsAlphaImage 120 (3 / 2)).width = dimsAlphaImage.width ∧
    (apply_color_variant dimsAlphaImage 120 (3 / 2)).height = dimsAlphaImage.height ∧
    (∀ x y, ((apply_color_variant dimsAlphaImage 120 (3 / 2)).px x y).a =
      (dimsAlphaImage.px x y).a) ∧
    (∀ x y, Pixel.value ((apply_color_variant dimsAlphaImage 120 (3 / 2)).px x y) =
      Pixel.value (dimsAlphaImage.px x y)) :=
  ⟨(apply_variant_preserves_dims_and_alpha dimsAlphaImage 120 (3 / 2)).1,
   (apply_variant_preserves_dims_and_alpha dimsAlphaImage 120 (3 / 2)).2.1,
   (apply_variant_preserves_dims_and_alpha dimsAlphaImage 120 (3 / 2)).2.2.1 rfl,
   (apply_variant_preserves_dims_and_alpha dimsAlphaImage 120 (3 / 2)).2.2.2 rfl⟩

/-- C6: for every non-empty list of frames sharing dimensions (W, H) and any
spacing, create_animation_sprite_sheet returns a sheet of width
N * W + (N - 1) * spacing and height H, in which the pixels of the cell of
index i hold frame i pasted onto the background at (i * (W + spacing), 0),
in input order. -/
theorem animation_sheet_layout (frames : List Image) (W H spacing : Nat) (bg : Pixel)
    (hne : frames ≠ [])
    (hdim : ∀ f ∈ frames, f.width = W ∧ f.height = H) :
    ∃ sheet, create_animation_sprite_sheet frames spacing bg = some sheet ∧
      sheet.width = frames.length * W + (frames.length - 1) * spacing ∧
      sheet.height = H ∧
      ∀ i f, frames[i]? = some f → ∀ dx dy, dx < W → dy < H →
        sheet.px (i * (W + spacing) + dx) dy =
          pastePx bg (f.px dx dy) (f.mode == Mode.RGBA) := by
  obtain ⟨f0, fs, rfl⟩ : ∃ f0 fs, frames = f0 :: fs := by
    cases frames with
    | nil => exact absurd rfl hne
    | cons a l => exact ⟨a, l, rfl⟩
  have hw0 := (hdim f0 (by simp)).1
  have hh0 := (hdim f0 (by simp)).2
  subst hw0
  subst hh0
  refine ⟨_, rfl, ?_, ?_, ?_⟩
  · rw [pasteStrip_width]
    rfl
  · rw [pasteStrip_height]
    rfl
  · intro i f hif dx dy hdx hdy
    have e1 : i * (f0.width + spacing) + dx = 0 + i * (f0.width + spacing) + dx := by omega
    have e2 : dy = 0 + dy := by omega
    rw [e1, e2,
      pasteStrip_px_get 0 f0.width f0.height spacing dx dy hdx hdy (f0 :: fs) _ 0 i f hif hdim]
    simp [Image.new]

/-- C1: for every non-empty well-formed AnimationSet (unique kinds, non-empty
animations, frames sharing dimensions), create_combined_sprite_sheet
succeeds, visits the kinds in the canonical sorted order — alphabetical by
kind identifier, attack before idle before walk — independently of insertion
order, and stacks the rows top-to-bottom in that order: the pixels of row j
hold the frames of the j-th kind of the sorted key list, each pasted onto
the background in its cell. -/
theorem combined_sheet_rows_canonical_order (m : List (AnimationType × List Image))
    (W H spacing : Nat) (bg : Pixel)
    (hne : m ≠ [])
    (hnd : (m.map Prod.fst).Nodup)
    (hrow : ∀ kv ∈ m, kv.2 ≠ [])
    (hdim : ∀ kv ∈ m, ∀ g ∈ kv.2, g.width = W ∧ g.height = H) :
    ∃ sheet, create_combined_sprite_sheet m spacing bg = some sheet ∧
      sortKeys (m.map Prod.fst) =
        [AnimationType.ATTACK, AnimationType.IDLE, AnimationType.WALK].filter
          (fun k => decide (k ∈ m.map Prod.fst)) ∧
      ∀ j k, (sortKeys (m.map Prod.fst))[j]? = some k →
        ∀ fs, dictLookup k m = some fs →
          ∀ i f, fs[i]? = some f → ∀ dx dy, dx < W → dy < H →
            sheet.px (i * (W + spacing) + dx) (j * (H + spacing) + dy) =
              pastePx bg (f.px dx dy) (f.mode == Mode.RGBA) := by
  obtain ⟨k0, fs0, rest, rfl⟩ : ∃ k0 fs0 rest, m = (k0, fs0) :: rest := by
    cases m with
    | nil => exact absurd rfl hne
    | cons kv rest => exact ⟨kv.1, kv.2, rest, by rfl⟩
  obtain ⟨f0, ft, rfl⟩ : ∃ a t, fs0 = a :: t := by
    have h0 := hrow (k0, fs0) (by simp)
    cases fs0 with
    | nil => exact absurd rfl h0
    | cons a t => exact ⟨a, t, rfl⟩
  have hw0 := (hdim (k0, f0 :: ft) (by simp) f0 (by simp)).1
  have hh0 := (hdim (k0, f0 :: ft) (by simp) f0 (by simp)).2
  subst hw0
  subst hh0
  refine ⟨_, rfl, sortKeys_of_nodup _ hnd, ?_⟩
  intro j k hj fs hlk i f hif dx dy hdx hdy
  have e1 : j * (f0.height + spacing) + dy = 0 + j * (f0.height + spacing) + dy := by omega
  rw [e1,
    pasteRows_px_get f0.width f0.height spacing dx dy hdx hdy ((k0, f0 :: ft) :: rest)
      hdim (sortKeys (((k0, f0 :: ft) :: rest).map Prod.fst)) _ 0 j k fs i f hj hlk hif]
  simp [Image.new]

/-- Witness for C1 at a concrete AnimationSet inserted in the order walk,
idle, attack, whose rows nevertheless come out attack, idle, walk. -/
theorem combined_sheet_rows_canonical_order_witness :
    ([(AnimationType.WALK, [rowFrameW]), (AnimationType.IDLE, [rowFrameI]),
        (AnimationType.ATTACK, [rowFrameA])] ≠
      ([] : List (AnimationType × List Image))) ∧
    (([(AnimationType.WALK, [rowFrameW]), (AnimationType.IDLE, [rowFrameI]),
        (AnimationType.ATTACK, [rowFrameA])].map Prod.fst).Nodup) ∧
    (∀ kv ∈ [(AnimationType.WALK, [rowFrameW]), (AnimationType.IDLE, [rowFrameI]),
        (AnimationType.ATTACK, [rowFrameA])], kv.2 ≠ []) ∧
    (∀ kv ∈ [(AnimationType.WALK, [rowFrameW]), (AnimationType.IDLE, [rowFrameI]),
        (AnimationType.ATTACK, [rowFrameA])], ∀ g ∈ kv.2, g.width = 1 ∧ g.height = 1) ∧
    (∃ sheet,
      create_combined_sprite_sheet
          [(AnimationType.WALK, [rowFrameW]), (AnimationType.IDLE, [rowFrameI]),
            (AnimationType.ATTACK, [rowFrameA])] 2 ⟨0, 0, 0, 0⟩ = some sheet ∧
      sortKeys ([(AnimationType.WALK, [rowFrameW]), (AnimationType.IDLE, [rowFrameI]),
          (AnimationType.ATTACK, [rowFrameA])].map Prod.fst) =
        [AnimationType.ATTACK, AnimationType.IDLE, AnimationType.WALK].filter
          (fun k => decide (k ∈ [(AnimationType.WALK, [rowFrameW]),
            (AnimationType.IDLE, [rowFrameI]),
            (AnimationType.ATTACK, [rowFrameA])].map Prod.fst)) ∧
      ∀ j k, (sortKeys ([(AnimationType.WALK, [rowFrameW]),
          (AnimationType.IDLE, [rowFrameI]),
          (AnimationType.ATTACK, [rowFrameA])].map Prod.fst))[j]? = some k →
        ∀ fs, dictLookup k [(AnimationType.WALK, [rowFrameW]),
            (AnimationType.IDLE, [rowFrameI]),
            (AnimationType.ATTACK, [rowFrameA])] = some fs →
          ∀ i f, fs[i]? = some f → ∀ dx dy, dx < 1 → dy < 1 →
            sheet.px (i * (1 + 2) + dx) (j * (1 + 2) + dy) =
              pastePx ⟨0, 0, 0, 0⟩ (f.px dx dy) (f.mode == Mode.RGBA)) :=
  ⟨by simp, by decide, by simp,
   by simp [rowFrameI, rowFrameW, rowFrameA],
   combined_sheet_rows_canonical_order _ 1 1 2 ⟨0, 0, 0, 0⟩ (by simp) (by decide)
     (by simp) (by simp [rowFrameI, rowFrameW, rowFrameA])⟩

/-- C10: every image-producing core operation returns an image in RGBA mode
whatever the modes of its inputs (for the preview, granted that the header
painting, like ImageDraw, keeps the mode of its canvas); and
apply_color_variant on a non-RGBA input returns an image whose alpha channel
is fully opaque. -/
theorem core_outputs_rgba (img : Image) (hs : ℤ) (sf : ℚ)
    (frames : List Image) (spacing : Nat) (bg : Pixel)
    (m : List (AnimationType × List Image)) (images : List Image) (cols : Nat)
    (drawHeader : PackMetadata → Image → Image) (meta : PackMetadata)
    (sheets : List Image) (scale : Nat)
    (hdh : ∀ pm i, (drawHeader pm i).mode = i.mode) :
    (apply_color_variant img hs sf).mode = Mode.RGBA ∧
    (img.mode ≠ Mode.RGBA → ∀ x y, ((apply_color_variant img hs sf).px x y).a = 255) ∧
    (∀ o, create_animation_sprite_sheet frames spacing bg = some o →
      o.mode = Mode.RGBA) ∧
    (∀ o, create_combined_sprite_sheet m spacing bg = some o → o.mode = Mode.RGBA) ∧
    (∀ o, create_grid_layout images cols spacing bg = some o → o.mode = Mode.RGBA) ∧
    (∀ o, create_pack_preview drawHeader sheets meta scale cols = some o →
      o.mode = Mode.RGBA) := by
  refine ⟨apply_color_variant_mode _ _ _,
    fun hm x y => apply_color_variant_px_alpha_opaque img hm hs sf x y, ?_, ?_, ?_, ?_⟩
  · intro o ho
    cases frames with
    | nil => simp [create_animation_sprite_sheet] at ho
    | cons f0 fs =>
      simp only [create_animation_sprite_sheet, Option.some.injEq] at ho
      rw [← ho, pasteStrip_mode]
      rfl
  · intro o ho
    match m with
    | [] => simp [create_combined_sprite_sheet] at ho
    | (k0, []) :: rest => simp [create_combined_sprite_sheet] at ho
    | (k0, g0 :: gs) :: rest =>
      simp only [create_combined_sprite_sheet, Option.some.injEq] at ho
      rw [← ho, pasteRows_mode]
      rfl
  · intro o ho
    cases images with
    | nil => simp [create_grid_layout] at ho
    | cons im0 rest =>
      simp only [create_grid_layout, Option.some.injEq] at ho
      rw [← ho, pasteGrid_mode]
      rfl
  · intro o ho
    cases sheets with
    | nil => simp [create_pack_preview] at ho
    | cons s0 ss =>
      simp only [create_pack_preview] at ho
      obtain ⟨grid, hgrid, hfo⟩ := Option.map_eq_some'.mp ho
      rw [← hfo, Image.paste_mode, hdh]
      rfl

/-- Witness for C10 at concrete inputs, with an RGB-mode input image and the
identity header painting. -/
theorem core_outputs_rgba_witness :
    (∀ pm i, (idDrawHeader pm i).mode = i.mode) ∧
    ((apply_color_variant rgbModeImage 60 1).mode = Mode.RGBA ∧
     (rgbModeImage.mode ≠ Mode.RGBA →
       ∀ x y, ((apply_color_variant rgbModeImage 60 1).px x y).a = 255) ∧
     (∀ o, create_animation_sprite_sheet [stripFrameA] 2 ⟨0, 0, 0, 0⟩ = some o →
       o.mode = Mode.RGBA) ∧
     (∀ o, create_combined_sprite_sheet [(AnimationType.IDLE, [stripFrameA])] 2
         ⟨0, 0, 0, 0⟩ = some o → o.mode = Mode.RGBA) ∧
     (∀ o, create_grid_layout [stripFrameA] 5 2 ⟨0, 0, 0, 0⟩ = some o →
       o.mode = Mode.RGBA) ∧
     (∀ o, create_pack_preview idDrawHeader [previewSheet] samplePackMetadata 8 5 = some o →
       o.mode = Mode.RGBA)) :=
  ⟨fun _ _ => rfl,
   core_outputs_rgba rgbModeImage 60 1 [stripFrameA] 2 ⟨0, 0, 0, 0⟩
     [(AnimationType.IDLE, [stripFrameA])] [stripFrameA] 5 idDrawHeader
     samplePackMetadata [previewSheet] 8 (fun _ _ => rfl)⟩

theorem create_grid_layout_isSome (images : List Image) (hne : images ≠ [])
    (cols spacing : Nat) (bg : Pixel) :
    (create_grid_layout images cols spacing bg).isSome := by
  cases images with
  | nil => exact absurd rfl hne
  | cons im0 rest => rfl

/-- C9: for every non-empty sheet list (and any dimension-preserving header
painting), create_pack_preview keeps at most the first 20 sheets in order,
crops from each a square of side the sheet height at the left edge and
upscales it by scale (pixel x, y of the upscale is pixel x / scale,
y / scale of the sheet), lays the crops out with create_grid_layout at
spacing 8 * scale, and stacks a header band of height 80 * scale above the
grid: the preview has the width of the grid, height grid height plus
80 * scale, and below the band every pixel is the grid pasted over the
painted canvas. -/
theorem pack_preview_layout (drawHeader : PackMetadata → Image → Image)
    (meta : PackMetadata) (sheets : List Image) (scale cols : Nat)
    (hdh : ∀ pm i, (drawHeader pm i).width = i.width ∧ (drawHeader pm i).height = i.height)
    (hne : sheets ≠ []) :
    ∃ grid preview,
      create_grid_layout
          ((sheets.take 20).map (fun sheet =>
            upscale_nearest_neighbor (sheet.crop 0 0 sheet.height sheet.height) scale))
          cols (8 * scale) previewBg = some grid ∧
      create_pack_preview drawHeader sheets meta scale cols = some preview ∧
      (sheets.take 20).length = min sheets.length 20 ∧
      (∀ sh ∈ sheets.take 20,
        ∀ x y, x < sh.height * scale → y < sh.height * scale →
          (upscale_nearest_neighbor (sh.crop 0 0 sh.height sh.height) scale).px x y =
            if x / scale < sh.width then sh.px (x / scale) (y / scale)
            else ⟨0, 0, 0, 0⟩) ∧
      preview.width = grid.width ∧
      preview.height = grid.height + 80 * scale ∧
      (∀ x y, x < grid.width → y < grid.height →
        preview.px x (80 * scale + y) =
          pastePx
            ((drawHeader meta
                (Image.new Mode.RGBA grid.width (grid.height + 80 * scale) previewBg)).px x
              (80 * scale + y))
            (grid.px x y) (grid.mode == Mode.RGBA)) := by
  obtain ⟨s0, ss, rfl⟩ : ∃ a l, sheets = a :: l := by
    cases sheets with
    | nil => exact absurd rfl hne
    | cons a l => exact ⟨a, l, rfl⟩
  have hps : ((s0 :: ss).take 20).map (fun sheet =>
      upscale_nearest_neighbor (sheet.crop 0 0 sheet.height sheet.height) scale) ≠ [] := by
    simp
  obtain ⟨grid, hgrid⟩ := Option.isSome_iff_exists.mp
    (create_grid_layout_isSome _ hps cols (8 * scale) previewBg)
  refine ⟨grid,
    (drawHeader meta
        (Image.new Mode.RGBA grid.width (grid.height + 80 * scale) previewBg)).paste grid 0
      (80 * scale),
    hgrid, ?_, ?_, ?_, ?_, ?_, ?_⟩
  · simp only [create_pack_preview]
    rw [hgrid]
    rfl
  · rw [List.length_take, Nat.min_comm]
  · intro sh _ x y hx hy
    have hscale : 0 < scale := by
      rcases Nat.eq_zero_or_pos scale with h0 | h
      · rw [h0, Nat.mul_zero] at hx
        omega
      · exact h
    have hcw : (sh.crop 0 0 sh.height sh.height).width = sh.height := by
      simp [Image.crop]
    have hch : (sh.crop 0 0 sh.height sh.height).height = sh.height := by
      simp [Image.crop]
    rw [upscale_px_div _ scale x y (by rw [hcw]; exact hx) (by rw [hch]; exact hy)]
    have hyy : y / scale < sh.height := by
      rw [Nat.div_lt_iff_lt_mul hscale]
      exact hy
    simp only [Image.crop, Nat.zero_add]
    by_cases hxw : x / scale < sh.width
    · rw [if_pos ⟨hxw, hyy⟩, if_pos hxw]
    · rw [if_neg (fun hc => hxw hc.1), if_neg hxw]
  · rw [Image.paste_width, (hdh meta _).1]
    rfl
  · rw [Image.paste_height, (hdh meta _).2]
    rfl
  · intro x y hx hy
    simp only [Image.paste]
    rw [if_pos (by omega)]
    have e2 : 80 * scale + y - 80 * scale = y := by omega
    have e3 : x - 0 = x := by omega
    rw [e2, e3]

/-- Witness for C9 at a concrete single-sheet list with the identity header
painting, scale 1 and 5 columns. -/
theorem pack_preview_layout_witness :
    (∀ pm i, (idDrawHeader pm i).width = i.width ∧ (idDrawHeader pm i).height = i.height) ∧
    ([previewSheet] ≠ ([] : List Image)) ∧
    (∃ grid preview,
      create_grid_layout
          (([previewSheet].take 20).map (fun sheet =>
            upscale_nearest_neighbor (sheet.crop 0 0 sheet.height sheet.height) 1))
          5 (8 * 1) previewBg = some grid ∧
      create_pack_preview idDrawHeader [previewSheet] samplePackMetadata 1 5 = some preview ∧
      ([previewSheet].take 20).length = min [previewSheet].length 20 ∧
      (∀ sh ∈ [previewSheet].take 20,
        ∀ x y, x < sh.height * 1 → y < sh.height * 1 →
          (upscale_nearest_neighbor (sh.crop 0 0 sh.height sh.height) 1).px x y =
            if x / 1 < sh.width then sh.px (x / 1) (y / 1) else ⟨0, 0, 0, 0⟩) ∧
      preview.width = grid.width ∧
      preview.height = grid.height + 80 * 1 ∧
      (∀ x y, x < grid.width → y < grid.height →
        preview.px x (80 * 1 + y) =
          pastePx
            ((idDrawHeader samplePackMetadata
                (Image.new Mode.RGBA grid.width (grid.height + 80 * 1) previewBg)).px x
              (80 * 1 + y))
            (grid.px x y) (grid.mode == Mode.RGBA))) :=
  ⟨fun _ _ => ⟨rfl, rfl⟩, by simp,
   pack_preview_layout idDrawHeader samplePackMetadata [previewSheet] 1 5
     (fun _ _ => ⟨rfl, rfl⟩) (by simp)⟩

/-- Witness for C6 at two concrete 1 by 1 frames and spacing 2. -/
theorem animation_sheet_layout_witness :
    ([stripFrameA, stripFrameB] ≠ ([] : List Image)) ∧
    (∀ f ∈ [stripFrameA, stripFrameB], f.width = 1 ∧ f.height = 1) ∧
    (∃ sheet,
      create_animation_sprite_sheet [stripFrameA, stripFrameB] 2 ⟨0, 0, 0, 0⟩ =
        some sheet ∧
      sheet.width = [stripFrameA, stripFrameB].length * 1 +
        ([stripFrameA, stripFrameB].length - 1) * 2 ∧
      sheet.height = 1 ∧
      ∀ i f, [stripFrameA, stripFrameB][i]? = some f → ∀ dx dy, dx < 1 → dy < 1 →
        sheet.px (i * (1 + 2) + dx) dy =
          pastePx ⟨0, 0, 0, 0⟩ (f.px dx dy) (f.mode == Mode.RGBA)) :=
  ⟨by simp, by simp [stripFrameA, stripFrameB],
   animation_sheet_layout [stripFrameA, stripFrameB] 1 1 2 ⟨0, 0, 0, 0⟩ (by simp)
     (by simp [stripFrameA, stripFrameB])⟩
